import Mathlib

/-!
Shallow embedding of the Monte Carlo option pricer: the C++ engine
(gbm.cpp, pricer.cpp, payoffs.cpp, black_scholes.cpp) and the JavaScript
Black-Scholes duplicate (app.js).  Doubles are modelled as real numbers,
thrown exceptions as `Except String`, and the thread-local random normal
source as an explicit stream of draws passed into each function.
-/

namespace MCPricer

/-- GBM parameters (gbm.hpp): initial price, volatility, maturity, step count. -/
structure GBMParams where
  S0 : ℝ
  sigma : ℝ
  T : ℝ
  steps : ℤ

/-- Monte Carlo result (pricer.hpp): price estimate and its standard error. -/
structure MCResult where
  price : ℝ
  stderr : ℝ

/-- payoffs.cpp european_call: max(S - K, 0). -/
noncomputable def european_call (S K : ℝ) : ℝ := max (S - K) 0

/-- payoffs.cpp european_put: max(K - S, 0). -/
noncomputable def european_put (S K : ℝ) : ℝ := max (K - S) 0

/-- One iteration of the loop in simulate_path (gbm.cpp):
next = current * exp((r - 0.5 sigma^2) dt + sigma sqrt(dt) Z). -/
noncomputable def gbm_step (sigma r dt z s : ℝ) : ℝ :=
  s * Real.exp ((r - 0.5 * sigma * sigma) * dt + sigma * Real.sqrt dt * z)

/-- The price after i iterations of the loop in simulate_path (gbm.cpp);
the draw consumed at step i is the stream Z at index i, dt = T / steps. -/
noncomputable def path_prices (p : GBMParams) (r : ℝ) (Z : ℕ → ℝ) : ℕ → ℝ
  | 0 => p.S0
  | i + 1 => gbm_step p.sigma r (p.T / (p.steps : ℝ)) (Z (i + 1)) (path_prices p r Z i)

/-- The vector simulate_path fills: steps+1 prices, index 0 holding S0. -/
noncomputable def path_list (p : GBMParams) (r : ℝ) (Z : ℕ → ℝ) : List ℝ :=
  (List.range (p.steps.toNat + 1)).map (path_prices p r Z)

/-- gbm.cpp simulate_path: the validation chain in source order, then the GBM loop. -/
noncomputable def simulate_path (p : GBMParams) (r : ℝ) (Z : ℕ → ℝ) :
    Except String (List ℝ) :=
  if p.S0 ≤ 0 then .error "Initial stock price S0 must be positive"
  else if p.sigma < 0 then .error "Volatility sigma must be non-negative"
  else if p.T ≤ 0 then .error "Time to maturity T must be positive"
  else if p.steps ≤ 0 then .error "Number of steps must be positive"
  else if r < 0 then .error "Risk-free rate r must be non-negative"
  else .ok (path_list p r Z)

/-- The accumulation loop of monte_carlo_price (pricer.cpp): iteration i
simulates a path from the stream Z i, takes its last element, evaluates the
call or put payoff, multiplies by the discount factor df, and adds the
discounted payoff and its square to the running sums.  An exception thrown
by simulate_path propagates. -/
noncomputable def mc_accumulate (p : GBMParams) (K : ℝ) (call : Bool) (r df : ℝ)
    (Z : ℕ → ℕ → ℝ) : ℕ → Except String (ℝ × ℝ)
  | 0 => .ok (0, 0)
  | i + 1 =>
    match mc_accumulate p K call r df Z i with
    | .error e => .error e
    | .ok acc =>
      match simulate_path p r (Z i) with
      | .error e => .error e
      | .ok path =>
        let S_T := path.getLastD 0
        let payoff := if call then european_call S_T K else european_put S_T K
        let d := df * payoff
        .ok (acc.1 + d, acc.2 + d * d)

/-- pricer.cpp monte_carlo_price: validate K, n_paths, r in source order,
run the accumulation loop (whose first iteration performs the remaining
validation inside simulate_path), then mean, variance and standard error. -/
noncomputable def monte_carlo_price (p : GBMParams) (K : ℝ) (call : Bool)
    (n_paths : ℤ) (r : ℝ) (Z : ℕ → ℕ → ℝ) : Except String MCResult :=
  if K ≤ 0 then .error "Strike price K must be positive"
  else if n_paths ≤ 0 then .error "Number of paths must be positive"
  else if r < 0 then .error "Risk-free rate r must be non-negative"
  else
    match mc_accumulate p K call r (Real.exp (-r * p.T)) Z n_paths.toNat with
    | .error e => .error e
    | .ok acc =>
      let n : ℝ := (n_paths : ℝ)
      let mean := acc.1 / n
      let variance := acc.2 / n - mean * mean
      .ok ⟨mean, Real.sqrt (variance / n)⟩

/-- The C mathematical library error function used by black_scholes.cpp:
erf x = 2 / sqrt(pi) * integral of exp(-t^2) for t from 0 to x. -/
noncomputable def erf (x : ℝ) : ℝ :=
  2 / Real.sqrt Real.pi * ∫ t in (0:ℝ)..x, Real.exp (-t ^ 2)

/-- black_scholes.cpp cumulative_normal: 0.5 * (1 + erf(x / sqrt 2)). -/
noncomputable def cumulative_normal (x : ℝ) : ℝ :=
  0.5 * (1 + erf (x / Real.sqrt 2))

/-- black_scholes.cpp bs_call: validation chain, the sigma = 0 branch that
tests S0 > K, and otherwise the d1/d2 formula. -/
noncomputable def bs_call (S0 K r sigma T : ℝ) : Except String ℝ :=
  if S0 ≤ 0 then .error "Stock price S0 must be positive"
  else if K ≤ 0 then .error "Strike price K must be positive"
  else if sigma < 0 then .error "Volatility sigma must be non-negative"
  else if T ≤ 0 then .error "Time to maturity T must be positive"
  else if sigma = 0 then
    (if S0 > K then .ok (S0 - K * Real.exp (-r * T)) else .ok 0)
  else
    let sqrt_T := Real.sqrt T
    let d1 := (Real.log (S0 / K) + (r + 0.5 * sigma * sigma) * T) / (sigma * sqrt_T)
    let d2 := d1 - sigma * sqrt_T
    .ok (S0 * cumulative_normal d1 - K * Real.exp (-r * T) * cumulative_normal d2)

/-- black_scholes.cpp bs_put: validation chain, the sigma = 0 branch that
tests K > S0, and otherwise the d1/d2 formula. -/
noncomputable def bs_put (S0 K r sigma T : ℝ) : Except String ℝ :=
  if S0 ≤ 0 then .error "Stock price S0 must be positive"
  else if K ≤ 0 then .error "Strike price K must be positive"
  else if sigma < 0 then .error "Volatility sigma must be non-negative"
  else if T ≤ 0 then .error "Time to maturity T must be positive"
  else if sigma = 0 then
    (if K > S0 then .ok (K * Real.exp (-r * T) - S0) else .ok 0)
  else
    let sqrt_T := Real.sqrt T
    let d1 := (Real.log (S0 / K) + (r + 0.5 * sigma * sigma) * T) / (sigma * sqrt_T)
    let d2 := d1 - sigma * sqrt_T
    .ok (K * Real.exp (-r * T) * cumulative_normal (-d2) - S0 * cumulative_normal (-d1))

/-- app.js cumulativeNormal: the Abramowitz-Stegun polynomial approximation
of the standard normal CDF. -/
noncomputable def cumulativeNormal (x : ℝ) : ℝ :=
  let a1 : ℝ := 0.254829592
  let a2 : ℝ := -0.284496736
  let a3 : ℝ := 1.421413741
  let a4 : ℝ := -1.453152027
  let a5 : ℝ := 1.061405429
  let p : ℝ := 0.3275911
  let s : ℝ := if 0 ≤ x then 1 else -1
  let y : ℝ := |x| / Real.sqrt 2
  let t : ℝ := 1 / (1 + p * y)
  let e : ℝ := 1 - (((((a5 * t + a4) * t) + a3) * t + a2) * t + a1) * t * Real.exp (-y * y)
  0.5 * (1 + s * e)

/-- app.js bsCall: a single generic validation error for every invalid
parameter, the sigma = 0 branch with max, and otherwise the d1/d2 formula. -/
noncomputable def bsCall (S0 K r sigma T : ℝ) : Except String ℝ :=
  if S0 ≤ 0 ∨ K ≤ 0 ∨ sigma < 0 ∨ T ≤ 0 then
    .error "Invalid parameters for Black-Scholes calculation"
  else if sigma = 0 then .ok (max (S0 - K * Real.exp (-r * T)) 0)
  else
    let sqrtT := Real.sqrt T
    let d1 := (Real.log (S0 / K) + (r + 0.5 * sigma * sigma) * T) / (sigma * sqrtT)
    let d2 := d1 - sigma * sqrtT
    .ok (S0 * cumulativeNormal d1 - K * Real.exp (-r * T) * cumulativeNormal d2)

/-- The discounted payoff of the path simulated from the draw stream Z:
exp(-r T) times the call or put payoff of the terminal price. -/
noncomputable def discounted_payoff (p : GBMParams) (K : ℝ) (call : Bool) (r : ℝ)
    (Z : ℕ → ℝ) : ℝ :=
  Real.exp (-r * p.T) *
    (if call then european_call (path_prices p r Z p.steps.toNat) K
     else european_put (path_prices p r Z p.steps.toNat) K)

/-- Whether an Except value is an error. -/
def isError {α : Type} (e : Except String α) : Bool :=
  match e with
  | .error _ => true
  | .ok _ => false

/-- The price field of an ok pricing result, 0 for an error. -/
noncomputable def okPrice (e : Except String MCResult) : ℝ :=
  match e with
  | .ok res => res.price
  | .error _ => 0

/-- A concrete parameter set used to instantiate theorems. -/
def pC : GBMParams := ⟨1, 0, 1, 1⟩

/-- A concrete per-path draw stream. -/
def Zc : ℕ → ℝ := fun _ => 0

/-- A concrete two-index draw stream. -/
def Wc : ℕ → ℕ → ℝ := fun _ _ => 0

/-- A second two-index draw stream with the same values as Wc. -/
def Wc2 : ℕ → ℕ → ℝ := fun _ _ => 0

/-- A second concrete per-path draw stream with different values. -/
def Zc2 : ℕ → ℝ := fun _ => 1

/-- A third two-index draw stream with different values. -/
def Wc3 : ℕ → ℕ → ℝ := fun _ _ => 1

/-- A parameter set with an invalid initial price. -/
def pBad : GBMParams := ⟨0, 0, 1, 1⟩

lemma path_list_getD (p : GBMParams) (r : ℝ) (Z : ℕ → ℝ) (i : ℕ)
    (h : i < p.steps.toNat + 1) :
    (path_list p r Z).getD i 0 = path_prices p r Z i := by
  unfold path_list
  rw [List.getD_eq_getElem?_getD, List.getElem?_map, List.getElem?_range h]
  rfl

lemma path_list_getLastD (p : GBMParams) (r : ℝ) (Z : ℕ → ℝ) :
    (path_list p r Z).getLastD 0 = path_prices p r Z p.steps.toNat := by
  unfold path_list
  rw [List.range_succ, List.map_append]
  simp

lemma path_list_length (p : GBMParams) (r : ℝ) (Z : ℕ → ℝ) :
    (path_list p r Z).length = p.steps.toNat + 1 := by
  unfold path_list
  rw [List.length_map, List.length_range]

lemma simulate_path_valid (p : GBMParams) (r : ℝ) (Z : ℕ → ℝ)
    (hS0 : 0 < p.S0) (hsig : 0 ≤ p.sigma) (hT : 0 < p.T) (hsteps : 0 < p.steps)
    (hr : 0 ≤ r) :
    simulate_path p r Z = .ok (path_list p r Z) := by
  unfold simulate_path
  rw [if_neg (not_le.mpr hS0), if_neg (not_lt.mpr hsig), if_neg (not_le.mpr hT),
    if_neg (not_le.mpr hsteps), if_neg (not_lt.mpr hr)]

lemma mc_accumulate_valid (p : GBMParams) (K : ℝ) (call : Bool) (r : ℝ)
    (Z : ℕ → ℕ → ℝ)
    (hS0 : 0 < p.S0) (hsig : 0 ≤ p.sigma) (hT : 0 < p.T) (hsteps : 0 < p.steps)
    (hr : 0 ≤ r) (m : ℕ) :
    mc_accumulate p K call r (Real.exp (-r * p.T)) Z m =
      .ok (∑ i ∈ Finset.range m, discounted_payoff p K call r (Z i),
           ∑ i ∈ Finset.range m,
             discounted_payoff p K call r (Z i) * discounted_payoff p K call r (Z i)) := by
  induction m with
  | zero => simp [mc_accumulate]
  | succ m ih =>
    rw [mc_accumulate, ih, simulate_path_valid p r (Z m) hS0 hsig hT hsteps hr]
    simp only [path_list_getLastD, Finset.sum_range_succ]
    rfl

lemma monte_carlo_price_valid (p : GBMParams) (K : ℝ) (call : Bool) (n_paths : ℤ)
    (r : ℝ) (Z : ℕ → ℕ → ℝ)
    (hS0 : 0 < p.S0) (hsig : 0 ≤ p.sigma) (hT : 0 < p.T) (hsteps : 0 < p.steps)
    (hK : 0 < K) (hn : 0 < n_paths) (hr : 0 ≤ r) :
    monte_carlo_price p K call n_paths r Z =
      .ok ⟨(∑ i ∈ Finset.range n_paths.toNat, discounted_payoff p K call r (Z i))
              / (n_paths : ℝ),
           Real.sqrt
             (((∑ i ∈ Finset.range n_paths.toNat,
                   discounted_payoff p K call r (Z i)
                     * discounted_payoff p K call r (Z i)) / (n_paths : ℝ)
                 - ((∑ i ∈ Finset.range n_paths.toNat,
                       discounted_payoff p K call r (Z i)) / (n_paths : ℝ))
                   * ((∑ i ∈ Finset.range n_paths.toNat,
                         discounted_payoff p K call r (Z i)) / (n_paths : ℝ)))
               / (n_paths : ℝ))⟩ := by
  unfold monte_carlo_price
  rw [if_neg (not_le.mpr hK), if_neg (not_le.mpr hn), if_neg (not_lt.mpr hr),
    mc_accumulate_valid p K call r Z hS0 hsig hT hsteps hr]

lemma path_prices_pos (p : GBMParams) (r : ℝ) (Z : ℕ → ℝ) (hS0 : 0 < p.S0) :
    ∀ i : ℕ, 0 < path_prices p r Z i := by
  intro i
  induction i with
  | zero => exact hS0
  | succ j ih =>
    simp only [path_prices, gbm_step]
    exact mul_pos ih (Real.exp_pos _)

/-- Claim C3: for valid parameters (S0 > 0, sigma >= 0, T > 0, steps >= 1,
r >= 0) and any draw stream, simulate_path succeeds with an ordered list of
steps+1 prices whose entry 0 is S0 and whose entry i multiplies entry i-1 by
exp((r - 0.5 sigma^2) dt + sigma sqrt(dt) Z_i) with dt = T / steps. -/
theorem simulate_path_spec (p : GBMParams) (r : ℝ) (Z : ℕ → ℝ)
    (hS0 : 0 < p.S0) (hsig : 0 ≤ p.sigma) (hT : 0 < p.T) (hsteps : 1 ≤ p.steps)
    (hr : 0 ≤ r) :
    simulate_path p r Z = .ok (path_list p r Z)
    ∧ (path_list p r Z).length = p.steps.toNat + 1
    ∧ (path_list p r Z).getD 0 0 = p.S0
    ∧ ∀ i : ℕ, 1 ≤ i → i ≤ p.steps.toNat →
        (path_list p r Z).getD i 0 =
          (path_list p r Z).getD (i - 1) 0 *
            Real.exp ((r - 0.5 * p.sigma * p.sigma) * (p.T / (p.steps : ℝ))
              + p.sigma * Real.sqrt (p.T / (p.steps : ℝ)) * Z i) := by
  refine ⟨simulate_path_valid p r Z hS0 hsig hT hsteps hr,
    path_list_length p r Z, ?_, ?_⟩
  · rw [path_list_getD p r Z 0 (Nat.succ_pos _)]
    rfl
  · intro i h1 h2
    match i, h1 with
    | (j + 1), _ =>
      rw [path_list_getD p r Z (j + 1) (by omega),
        path_list_getD p r Z (j + 1 - 1) (by omega)]
      simp only [Nat.add_sub_cancel]
      rfl

/-- Witness for C3 at S0 = 1, sigma = 0, T = 1, steps = 1, r = 0. -/
theorem simulate_path_spec_witness :
    simulate_path pC 0 Zc = .ok (path_list pC 0 Zc)
    ∧ (path_list pC 0 Zc).length = pC.steps.toNat + 1
    ∧ (path_list pC 0 Zc).getD 0 0 = pC.S0
    ∧ ∀ i : ℕ, 1 ≤ i → i ≤ pC.steps.toNat →
        (path_list pC 0 Zc).getD i 0 =
          (path_list pC 0 Zc).getD (i - 1) 0 *
            Real.exp ((0 - 0.5 * pC.sigma * pC.sigma) * (pC.T / (pC.steps : ℝ))
              + pC.sigma * Real.sqrt (pC.T / (pC.steps : ℝ)) * Zc i) :=
  simulate_path_spec pC 0 Zc (by norm_num [pC]) (by norm_num [pC])
    (by norm_num [pC]) (by norm_num [pC]) (by norm_num)

/-- Claim C9: for valid parameters every element of the simulated path is
strictly positive. -/
theorem simulate_path_positive (p : GBMParams) (r : ℝ) (Z : ℕ → ℝ)
    (hS0 : 0 < p.S0) (hsig : 0 ≤ p.sigma) (hT : 0 < p.T) (hsteps : 1 ≤ p.steps)
    (hr : 0 ≤ r) :
    simulate_path p r Z = .ok (path_list p r Z)
    ∧ ∀ x ∈ path_list p r Z, 0 < x := by
  refine ⟨simulate_path_valid p r Z hS0 hsig hT hsteps hr, ?_⟩
  intro x hx
  rw [path_list, List.mem_map] at hx
  obtain ⟨i, _, rfl⟩ := hx
  exact path_prices_pos p r Z hS0 i

/-- Witness for C9 at S0 = 1, sigma = 0, T = 1, steps = 1, r = 0. -/
theorem simulate_path_positive_witness :
    simulate_path pC 0 Zc = .ok (path_list pC 0 Zc)
    ∧ ∀ x ∈ path_list pC 0 Zc, 0 < x :=
  simulate_path_positive pC 0 Zc (by norm_num [pC]) (by norm_num [pC])
    (by norm_num [pC]) (by norm_num [pC]) (by norm_num)

/-- Claim C8: with the per-worker random streams fixed (the two runs see the
same draws, as a fixed seed per stream guarantees), monte_carlo_price returns
identical output on both runs. -/
theorem monte_carlo_price_deterministic (p : GBMParams) (K : ℝ) (call : Bool)
    (n_paths : ℤ) (r : ℝ) (Z Z2 : ℕ → ℕ → ℝ) (h : ∀ i j, Z i j = Z2 i j) :
    monte_carlo_price p K call n_paths r Z = monte_carlo_price p K call n_paths r Z2 := by
  have hZ : Z = Z2 := funext fun i => funext fun j => h i j
  rw [hZ]

/-- Witness for C8: two syntactically different streams with equal draws. -/
theorem monte_carlo_price_deterministic_witness :
    monte_carlo_price pC 1 true 10 0 Wc = monte_carlo_price pC 1 true 10 0 Wc2 :=
  monte_carlo_price_deterministic pC 1 true 10 0 Wc Wc2 (fun _ _ => rfl)

/-- Claim C10: for a valid pricing request the returned price is non-negative,
because every discounted payoff is non-negative. -/
theorem monte_carlo_price_nonneg (p : GBMParams) (K : ℝ) (call : Bool)
    (n_paths : ℤ) (r : ℝ) (Z : ℕ → ℕ → ℝ)
    (hS0 : 0 < p.S0) (hsig : 0 ≤ p.sigma) (hT : 0 < p.T) (hsteps : 0 < p.steps)
    (hK : 0 < K) (hn : 0 < n_paths) (hr : 0 ≤ r) :
    isError (monte_carlo_price p K call n_paths r Z) = false
    ∧ 0 ≤ okPrice (monte_carlo_price p K call n_paths r Z) := by
  rw [monte_carlo_price_valid p K call n_paths r Z hS0 hsig hT hsteps hK hn hr]
  refine ⟨rfl, ?_⟩
  show 0 ≤ (∑ i ∈ Finset.range n_paths.toNat, discounted_payoff p K call r (Z i))
      / (n_paths : ℝ)
  apply div_nonneg
  · apply Finset.sum_nonneg
    intro i _
    unfold discounted_payoff
    apply mul_nonneg (Real.exp_pos _).le
    cases call
    · exact le_max_right _ _
    · exact le_max_right _ _
  · exact_mod_cast hn.le

/-- Witness for C10 at a concrete valid request. -/
theorem monte_carlo_price_nonneg_witness :
    isError (monte_carlo_price pC 1 true 10 0 Wc) = false
    ∧ 0 ≤ okPrice (monte_carlo_price pC 1 true 10 0 Wc) :=
  monte_carlo_price_nonneg pC 1 true 10 0 Wc (by norm_num [pC]) (by norm_num [pC])
    (by norm_num [pC]) (by norm_num [pC]) (by norm_num) (by norm_num) (by norm_num)

lemma erf_neg (x : ℝ) : erf (-x) = -erf x := by
  unfold erf
  have h1 : (∫ t in (0:ℝ)..(-x), Real.exp (-t ^ 2))
      = ∫ t in (0:ℝ)..(-x), Real.exp (-(-t) ^ 2) := by
    simp
  have h2 : (∫ t in (0:ℝ)..(-x), Real.exp (-(-t) ^ 2))
      = ∫ t in x..(0:ℝ), Real.exp (-t ^ 2) := by
    rw [intervalIntegral.integral_comp_neg (fun t => Real.exp (-t ^ 2))]
    norm_num
  rw [h1, h2, intervalIntegral.integral_symm]
  ring

lemma cumulative_normal_add_neg (x : ℝ) :
    cumulative_normal x + cumulative_normal (-x) = 1 := by
  unfold cumulative_normal
  rw [neg_div, erf_neg]
  ring

/-- For positive volatility, the closed-form call and put satisfy exact
put-call parity, because N(d) + N(-d) = 1 for the erf-based CDF. -/
lemma bs_parity_sigma_pos (S0 K r sigma T : ℝ)
    (hS0 : 0 < S0) (hK : 0 < K) (hsig : 0 < sigma) (hT : 0 < T) :
    bs_call S0 K r sigma T =
      .ok (S0 * cumulative_normal
            ((Real.log (S0 / K) + (r + 0.5 * sigma * sigma) * T) / (sigma * Real.sqrt T))
          - K * Real.exp (-r * T) * cumulative_normal
            ((Real.log (S0 / K) + (r + 0.5 * sigma * sigma) * T) / (sigma * Real.sqrt T)
              - sigma * Real.sqrt T))
    ∧ bs_put S0 K r sigma T =
      .ok (K * Real.exp (-r * T) * cumulative_normal
            (-((Real.log (S0 / K) + (r + 0.5 * sigma * sigma) * T) / (sigma * Real.sqrt T)
              - sigma * Real.sqrt T))
          - S0 * cumulative_normal
            (-((Real.log (S0 / K) + (r + 0.5 * sigma * sigma) * T)
                / (sigma * Real.sqrt T))))
    ∧ (S0 * cumulative_normal
            ((Real.log (S0 / K) + (r + 0.5 * sigma * sigma) * T) / (sigma * Real.sqrt T))
          - K * Real.exp (-r * T) * cumulative_normal
            ((Real.log (S0 / K) + (r + 0.5 * sigma * sigma) * T) / (sigma * Real.sqrt T)
              - sigma * Real.sqrt T))
        - (K * Real.exp (-r * T) * cumulative_normal
            (-((Real.log (S0 / K) + (r + 0.5 * sigma * sigma) * T) / (sigma * Real.sqrt T)
              - sigma * Real.sqrt T))
          - S0 * cumulative_normal
            (-((Real.log (S0 / K) + (r + 0.5 * sigma * sigma) * T)
                / (sigma * Real.sqrt T))))
      = S0 - K * Real.exp (-r * T) := by
  refine ⟨?_, ?_, ?_⟩
  · unfold bs_call
    rw [if_neg (not_le.mpr hS0), if_neg (not_le.mpr hK), if_neg (not_lt.mpr hsig.le),
      if_neg (not_le.mpr hT), if_neg (ne_of_gt hsig)]
  · unfold bs_put
    rw [if_neg (not_le.mpr hS0), if_neg (not_le.mpr hK), if_neg (not_lt.mpr hsig.le),
      if_neg (not_le.mpr hT), if_neg (ne_of_gt hsig)]
  · have hd1 := cumulative_normal_add_neg
      ((Real.log (S0 / K) + (r + 0.5 * sigma * sigma) * T) / (sigma * Real.sqrt T))
    have hd2 := cumulative_normal_add_neg
      ((Real.log (S0 / K) + (r + 0.5 * sigma * sigma) * T) / (sigma * Real.sqrt T)
        - sigma * Real.sqrt T)
    linear_combination S0 * hd1 - K * Real.exp (-r * T) * hd2

lemma exp_neg_one_lt : Real.exp (-1 : ℝ) < 1 / 2 := by
  have he : (2:ℝ) < Real.exp 1 := by
    have := Real.add_one_lt_exp (one_ne_zero : (1:ℝ) ≠ 0)
    linarith
  rw [Real.exp_neg]
  exact lt_of_lt_of_eq (inv_strictAnti₀ (by norm_num) he) (by norm_num)

/-- Claim C1: the sigma = 0 branch of bs_call and bs_put branches on S0
versus K, not on S0 versus the discounted strike.  At S0 = K = 100, r = 1,
sigma = 0, T = 1 the call returns 0 while the claimed value
max(S0 - K exp(-rT), 0) is positive; at S0 = 95, K = 100, r = 1 the put
returns the negative number 100 exp(-1) - 95 while the claimed value is 0. -/
theorem bs_sigma_zero_code_divergence :
    bs_call 100 100 1 0 1 = .ok 0
    ∧ max (100 - 100 * Real.exp (-1 : ℝ)) 0 ≠ 0
    ∧ bs_put 95 100 1 0 1 = .ok (100 * Real.exp (-1 : ℝ) - 95)
    ∧ 100 * Real.exp (-1 : ℝ) - 95 < 0
    ∧ max (100 * Real.exp (-1 : ℝ) - 95) 0 = 0 := by
  have hneg : 100 * Real.exp (-1 : ℝ) - 95 < 0 := by
    linarith [exp_neg_one_lt]
  have hcall : (0:ℝ) < 100 - 100 * Real.exp (-1 : ℝ) := by
    linarith [exp_neg_one_lt, Real.exp_pos (-1 : ℝ)]
  refine ⟨?_, ?_, ?_, hneg, max_eq_right hneg.le⟩
  · unfold bs_call
    rw [if_neg (by norm_num : ¬(100:ℝ) ≤ 0), if_neg (by norm_num : ¬(100:ℝ) ≤ 0),
      if_neg (by norm_num : ¬(0:ℝ) < 0), if_neg (by norm_num : ¬(1:ℝ) ≤ 0),
      if_pos rfl, if_neg (by norm_num : ¬(100:ℝ) > 100)]
  · exact ne_of_gt (lt_of_lt_of_le hcall (le_max_left _ _))
  · unfold bs_put
    rw [if_neg (by norm_num : ¬(95:ℝ) ≤ 0), if_neg (by norm_num : ¬(100:ℝ) ≤ 0),
      if_neg (by norm_num : ¬(0:ℝ) < 0), if_neg (by norm_num : ¬(1:ℝ) ≤ 0),
      if_pos rfl, if_pos (by norm_num : (100:ℝ) > 95)]
    norm_num

/-- Claim C2: at the valid parameter set S0 = K = 100, r = 1, sigma = 0,
T = 1 the code prices both the call and the put at 0, so bs_call - bs_put
misses S0 - K exp(-rT) by far more than the claimed 1e-9 tolerance. -/
theorem put_call_parity_code_divergence :
    bs_call 100 100 1 0 1 = .ok 0
    ∧ bs_put 100 100 1 0 1 = .ok 0
    ∧ 1 / 1000000000 < |(0:ℝ) - 0 - (100 - 100 * Real.exp (-1 : ℝ))| := by
  refine ⟨?_, ?_, ?_⟩
  · unfold bs_call
    rw [if_neg (by norm_num : ¬(100:ℝ) ≤ 0), if_neg (by norm_num : ¬(100:ℝ) ≤ 0),
      if_neg (by norm_num : ¬(0:ℝ) < 0), if_neg (by norm_num : ¬(1:ℝ) ≤ 0),
      if_pos rfl, if_neg (by norm_num : ¬(100:ℝ) > 100)]
  · unfold bs_put
    rw [if_neg (by norm_num : ¬(100:ℝ) ≤ 0), if_neg (by norm_num : ¬(100:ℝ) ≤ 0),
      if_neg (by norm_num : ¬(0:ℝ) < 0), if_neg (by norm_num : ¬(1:ℝ) ≤ 0),
      if_pos rfl, if_neg (by norm_num : ¬(100:ℝ) > 100)]
  · have hcall : (0:ℝ) < 100 - 100 * Real.exp (-1 : ℝ) := by
      linarith [exp_neg_one_lt, Real.exp_pos (-1 : ℝ)]
    rw [abs_of_neg (by linarith)]
    linarith [exp_neg_one_lt]

/-- Claim C4: for a valid request, monte_carlo_price returns the mean of the
n_paths discounted payoffs as the price and
sqrt((mean of squares - mean^2) / n_paths) as the standard error. -/
theorem monte_carlo_price_formula (p : GBMParams) (K : ℝ) (call : Bool)
    (n_paths : ℤ) (r : ℝ) (Z : ℕ → ℕ → ℝ)
    (hS0 : 0 < p.S0) (hsig : 0 ≤ p.sigma) (hT : 0 < p.T) (hsteps : 0 < p.steps)
    (hK : 0 < K) (hn : 0 < n_paths) (hr : 0 ≤ r) :
    monte_carlo_price p K call n_paths r Z =
      .ok ⟨(∑ i ∈ Finset.range n_paths.toNat, discounted_payoff p K call r (Z i))
              / (n_paths : ℝ),
           Real.sqrt
             (((∑ i ∈ Finset.range n_paths.toNat,
                   discounted_payoff p K call r (Z i)
                     * discounted_payoff p K call r (Z i)) / (n_paths : ℝ)
                 - ((∑ i ∈ Finset.range n_paths.toNat,
                       discounted_payoff p K call r (Z i)) / (n_paths : ℝ))
                   * ((∑ i ∈ Finset.range n_paths.toNat,
                         discounted_payoff p K call r (Z i)) / (n_paths : ℝ)))
               / (n_paths : ℝ))⟩ :=
  monte_carlo_price_valid p K call n_paths r Z hS0 hsig hT hsteps hK hn hr

/-- Witness for C4 at a concrete valid request. -/
theorem monte_carlo_price_formula_witness :
    monte_carlo_price pC 1 true 1 0 Wc =
      .ok ⟨(∑ i ∈ Finset.range (1:ℤ).toNat, discounted_payoff pC 1 true 0 (Wc i))
              / ((1:ℤ) : ℝ),
           Real.sqrt
             (((∑ i ∈ Finset.range (1:ℤ).toNat,
                   discounted_payoff pC 1 true 0 (Wc i)
                     * discounted_payoff pC 1 true 0 (Wc i)) / ((1:ℤ) : ℝ)
                 - ((∑ i ∈ Finset.range (1:ℤ).toNat,
                       discounted_payoff pC 1 true 0 (Wc i)) / ((1:ℤ) : ℝ))
                   * ((∑ i ∈ Finset.range (1:ℤ).toNat,
                         discounted_payoff pC 1 true 0 (Wc i)) / ((1:ℤ) : ℝ)))
               / ((1:ℤ) : ℝ))⟩ :=
  monte_carlo_price_formula pC 1 true 1 0 Wc (by norm_num [pC]) (by norm_num [pC])
    (by norm_num [pC]) (by norm_num [pC]) (by norm_num) (by norm_num) (by norm_num)

lemma path_prices_sigma_zero (p : GBMParams) (r : ℝ) (Z : ℕ → ℝ)
    (hsig : p.sigma = 0) (i : ℕ) :
    path_prices p r Z i = p.S0 * Real.exp (r * (p.T / (p.steps : ℝ))) ^ i := by
  induction i with
  | zero => simp [path_prices]
  | succ j ih =>
    have harg : (r - 0.5 * p.sigma * p.sigma) * (p.T / (p.steps : ℝ))
        + p.sigma * Real.sqrt (p.T / (p.steps : ℝ)) * Z (j + 1)
        = r * (p.T / (p.steps : ℝ)) := by
      rw [hsig]
      ring
    simp only [path_prices, gbm_step, harg, ih]
    ring

lemma terminal_sigma_zero (p : GBMParams) (r : ℝ) (Z : ℕ → ℝ)
    (hsig : p.sigma = 0) (hsteps : 0 < p.steps) :
    path_prices p r Z p.steps.toNat = p.S0 * Real.exp (r * p.T) := by
  rw [path_prices_sigma_zero p r Z hsig, ← Real.exp_nat_mul]
  have hne : (p.steps : ℝ) ≠ 0 := by
    exact_mod_cast ne_of_gt hsteps
  have hcast : ((p.steps.toNat : ℕ) : ℝ) = (p.steps : ℝ) := by
    rw_mod_cast [Int.toNat_of_nonneg hsteps.le]
  congr 1
  rw [hcast]
  field_simp

lemma discounted_payoff_sigma_zero (p : GBMParams) (K : ℝ) (call : Bool) (r : ℝ)
    (Z : ℕ → ℝ) (hsig : p.sigma = 0) (hsteps : 0 < p.steps) :
    discounted_payoff p K call r Z =
      Real.exp (-r * p.T) *
        (if call then european_call (p.S0 * Real.exp (r * p.T)) K
         else european_put (p.S0 * Real.exp (r * p.T)) K) := by
  unfold discounted_payoff
  rw [terminal_sigma_zero p r Z hsig hsteps]

/-- Claim C7: with sigma = 0 and otherwise valid inputs, monte_carlo_price
completes for every n_paths >= 1, returning the deterministic discounted
payoff as the price, standard error 0, and a plug-in variance of 0. -/
theorem sigma_zero_estimator (p : GBMParams) (K : ℝ) (call : Bool)
    (n_paths : ℤ) (r : ℝ) (Z : ℕ → ℕ → ℝ)
    (hsig : p.sigma = 0) (hS0 : 0 < p.S0) (hT : 0 < p.T) (hsteps : 0 < p.steps)
    (hK : 0 < K) (hn : 0 < n_paths) (hr : 0 ≤ r) :
    monte_carlo_price p K call n_paths r Z =
      .ok ⟨Real.exp (-r * p.T) *
             (if call then european_call (p.S0 * Real.exp (r * p.T)) K
              else european_put (p.S0 * Real.exp (r * p.T)) K),
           0⟩
    ∧ (∑ i ∈ Finset.range n_paths.toNat,
          discounted_payoff p K call r (Z i) * discounted_payoff p K call r (Z i))
          / (n_paths : ℝ)
        - ((∑ i ∈ Finset.range n_paths.toNat, discounted_payoff p K call r (Z i))
            / (n_paths : ℝ))
          * ((∑ i ∈ Finset.range n_paths.toNat, discounted_payoff p K call r (Z i))
              / (n_paths : ℝ)) = 0 := by
  have hd : ∀ Y : ℕ → ℝ, discounted_payoff p K call r Y =
      Real.exp (-r * p.T) *
        (if call then european_call (p.S0 * Real.exp (r * p.T)) K
         else european_put (p.S0 * Real.exp (r * p.T)) K) :=
    fun Y => discounted_payoff_sigma_zero p K call r Y hsig hsteps
  have hn0 : ((n_paths : ℤ) : ℝ) ≠ 0 := by
    exact_mod_cast ne_of_gt hn
  have hcast : ((n_paths.toNat : ℕ) : ℝ) = ((n_paths : ℤ) : ℝ) := by
    rw_mod_cast [Int.toNat_of_nonneg hn.le]
  rw [monte_carlo_price_valid p K call n_paths r Z hS0 hsig.ge hT hsteps hK hn hr]
  simp only [hd, Finset.sum_const, Finset.card_range, nsmul_eq_mul, hcast]
  rw [mul_div_cancel_left₀ _ hn0, mul_div_cancel_left₀ _ hn0]
  constructor
  · norm_num
  · exact sub_self _

/-- Witness for C7 at a concrete sigma = 0 request. -/
theorem sigma_zero_estimator_witness :
    monte_carlo_price pC 1 true 10 0 Wc =
      .ok ⟨Real.exp (-0 * pC.T) *
             (if true then european_call (pC.S0 * Real.exp (0 * pC.T)) 1
              else european_put (pC.S0 * Real.exp (0 * pC.T)) 1),
           0⟩
    ∧ (∑ i ∈ Finset.range (10:ℤ).toNat,
          discounted_payoff pC 1 true 0 (Wc i) * discounted_payoff pC 1 true 0 (Wc i))
          / ((10:ℤ) : ℝ)
        - ((∑ i ∈ Finset.range (10:ℤ).toNat, discounted_payoff pC 1 true 0 (Wc i))
            / ((10:ℤ) : ℝ))
          * ((∑ i ∈ Finset.range (10:ℤ).toNat, discounted_payoff pC 1 true 0 (Wc i))
              / ((10:ℤ) : ℝ)) = 0 :=
  sigma_zero_estimator pC 1 true 10 0 Wc (by norm_num [pC]) (by norm_num [pC])
    (by norm_num [pC]) (by norm_num [pC]) (by norm_num) (by norm_num) (by norm_num)

lemma mc_accumulate_propagate (p : GBMParams) (K : ℝ) (call : Bool) (r df : ℝ)
    (W : ℕ → ℕ → ℝ) (msg : String)
    (hall : ∀ Y : ℕ → ℝ, simulate_path p r Y = .error msg) :
    ∀ m : ℕ, mc_accumulate p K call r df W (m + 1) = .error msg := by
  intro m
  induction m with
  | zero => simp [mc_accumulate, hall (W 0)]
  | succ j ih =>
    rw [mc_accumulate, ih]

lemma monte_carlo_price_propagate (p : GBMParams) (K : ℝ) (call : Bool)
    (n_paths : ℤ) (r : ℝ) (W : ℕ → ℕ → ℝ) (msg : String)
    (hK : 0 < K) (hn : 0 < n_paths) (hr : 0 ≤ r)
    (hall : ∀ Y : ℕ → ℝ, simulate_path p r Y = .error msg) :
    monte_carlo_price p K call n_paths r W = .error msg := by
  unfold monte_carlo_price
  rw [if_neg (not_le.mpr hK), if_neg (not_le.mpr hn), if_neg (not_lt.mpr hr)]
  obtain ⟨m, hm⟩ : ∃ m : ℕ, n_paths.toNat = m + 1 :=
    ⟨n_paths.toNat - 1, by omega⟩
  rw [hm, mc_accumulate_propagate p K call r _ W msg hall m]

/-- Claim C5: whenever S0 <= 0, sigma < 0, T <= 0 or steps <= 0,
simulate_path fails with an error naming the offending parameter and its
result does not depend on the draw stream (no draw is consumed), and
monte_carlo_price on those parameters also fails independently of the draws. -/
theorem invalid_params_fail_fast (p : GBMParams) (r K : ℝ) (call : Bool)
    (n_paths : ℤ) (Z Z2 : ℕ → ℝ) (W W2 : ℕ → ℕ → ℝ)
    (hbad : p.S0 ≤ 0 ∨ p.sigma < 0 ∨ p.T ≤ 0 ∨ p.steps ≤ 0) :
    simulate_path p r Z = simulate_path p r Z2
    ∧ isError (simulate_path p r Z) = true
    ∧ simulate_path p r Z ∈
        [(Except.error "Initial stock price S0 must be positive" : Except String (List ℝ)),
         Except.error "Volatility sigma must be non-negative",
         Except.error "Time to maturity T must be positive",
         Except.error "Number of steps must be positive"]
    ∧ monte_carlo_price p K call n_paths r W = monte_carlo_price p K call n_paths r W2
    ∧ isError (monte_carlo_price p K call n_paths r W) = true := by
  have main : ∃ msg, (∀ Y : ℕ → ℝ, simulate_path p r Y = .error msg) ∧
      (Except.error msg : Except String (List ℝ)) ∈
        [(Except.error "Initial stock price S0 must be positive" : Except String (List ℝ)),
         Except.error "Volatility sigma must be non-negative",
         Except.error "Time to maturity T must be positive",
         Except.error "Number of steps must be positive"] := by
    by_cases h1 : p.S0 ≤ 0
    · exact ⟨"Initial stock price S0 must be positive",
        fun Y => by unfold simulate_path; rw [if_pos h1], by simp⟩
    · by_cases h2 : p.sigma < 0
      · exact ⟨"Volatility sigma must be non-negative",
          fun Y => by unfold simulate_path; rw [if_neg h1, if_pos h2], by simp⟩
      · by_cases h3 : p.T ≤ 0
        · exact ⟨"Time to maturity T must be positive",
            fun Y => by unfold simulate_path; rw [if_neg h1, if_neg h2, if_pos h3],
            by simp⟩
        · by_cases h4 : p.steps ≤ 0
          · exact ⟨"Number of steps must be positive",
              fun Y => by
                unfold simulate_path
                rw [if_neg h1, if_neg h2, if_neg h3, if_pos h4],
              by simp⟩
          · rcases hbad with h | h | h | h
            · exact absurd h h1
            · exact absurd h h2
            · exact absurd h h3
            · exact absurd h h4
  obtain ⟨msg, hall, hmem⟩ := main
  have hmcp : ∃ e, ∀ V : ℕ → ℕ → ℝ,
      monte_carlo_price p K call n_paths r V = .error e := by
    by_cases hK : K ≤ 0
    · exact ⟨"Strike price K must be positive",
        fun V => by unfold monte_carlo_price; rw [if_pos hK]⟩
    · by_cases hn : n_paths ≤ 0
      · exact ⟨"Number of paths must be positive",
          fun V => by unfold monte_carlo_price; rw [if_neg hK, if_pos hn]⟩
      · by_cases hr : r < 0
        · exact ⟨"Risk-free rate r must be non-negative",
            fun V => by unfold monte_carlo_price; rw [if_neg hK, if_neg hn, if_pos hr]⟩
        · exact ⟨msg, fun V => monte_carlo_price_propagate p K call n_paths r V msg
            (not_le.mp hK) (not_le.mp hn) (not_lt.mp hr) hall⟩
  obtain ⟨e, he⟩ := hmcp
  exact ⟨by rw [hall Z, hall Z2], by rw [hall Z]; rfl, by rw [hall Z]; exact hmem,
    by rw [he W, he W2], by rw [he W]; rfl⟩

/-- Witness for C5 at S0 = 0 with two different draw streams. -/
theorem invalid_params_fail_fast_witness :
    simulate_path pBad 0 Zc = simulate_path pBad 0 Zc2
    ∧ isError (simulate_path pBad 0 Zc) = true
    ∧ simulate_path pBad 0 Zc ∈
        [(Except.error "Initial stock price S0 must be positive" : Except String (List ℝ)),
         Except.error "Volatility sigma must be non-negative",
         Except.error "Time to maturity T must be positive",
         Except.error "Number of steps must be positive"]
    ∧ monte_carlo_price pBad 1 true 1 0 Wc = monte_carlo_price pBad 1 true 1 0 Wc3
    ∧ isError (monte_carlo_price pBad 1 true 1 0 Wc) = true :=
  invalid_params_fail_fast pBad 0 1 true 1 Zc Zc2 Wc Wc3
    (Or.inl (by norm_num [pBad]))

/-- Counterexample for C6: in the JavaScript closed-form pricer, two
different invalid-parameter conditions (S0 = 0 versus K = -1) raise the
same generic error message, so the failure is neither distinct per
condition nor does it identify the offending field. -/
theorem bsCall_generic_error :
    bsCall 0 100 (5/100) (2/10) 1
        = .error "Invalid parameters for Black-Scholes calculation"
    ∧ bsCall 100 (-1) (5/100) (2/10) 1
        = .error "Invalid parameters for Black-Scholes calculation" := by
  constructor
  · unfold bsCall
    rw [if_pos]
    left
    norm_num
  · unfold bsCall
    rw [if_pos]
    right
    left
    norm_num

/-- Claim C6 (amended): in the C++ entry points, each invalid-parameter
condition yields its own distinct message naming the offending field: the
spec test values S0 = 0, K = -1, sigma = -0.1, T = 0, steps = 0,
n_paths = 0, r = -0.01 each produce the field-specific message through
monte_carlo_price, and bs_call names the field for each of its four checks;
the seven Monte Carlo messages are pairwise distinct.  (The JavaScript
closed-form pricer bsCall instead throws one generic message, see the
counterexample.) -/
theorem validation_messages_distinct (S0 sigma T : ℝ) (steps : ℤ) (K r : ℝ)
    (call : Bool) (n_paths : ℤ) (W : ℕ → ℕ → ℝ)
    (hS0 : 0 < S0) (hsig : 0 ≤ sigma) (hT : 0 < T) (hsteps : 0 < steps)
    (hK : 0 < K) (hn : 0 < n_paths) (hr : 0 ≤ r) :
    monte_carlo_price ⟨S0, sigma, T, steps⟩ (-1) call n_paths r W
        = .error "Strike price K must be positive"
    ∧ monte_carlo_price ⟨S0, sigma, T, steps⟩ K call 0 r W
        = .error "Number of paths must be positive"
    ∧ monte_carlo_price ⟨S0, sigma, T, steps⟩ K call n_paths (-1/100) W
        = .error "Risk-free rate r must be non-negative"
    ∧ monte_carlo_price ⟨0, sigma, T, steps⟩ K call n_paths r W
        = .error "Initial stock price S0 must be positive"
    ∧ monte_carlo_price ⟨S0, -1/10, T, steps⟩ K call n_paths r W
        = .error "Volatility sigma must be non-negative"
    ∧ monte_carlo_price ⟨S0, sigma, 0, steps⟩ K call n_paths r W
        = .error "Time to maturity T must be positive"
    ∧ monte_carlo_price ⟨S0, sigma, T, 0⟩ K call n_paths r W
        = .error "Number of steps must be positive"
    ∧ bs_call 0 K r sigma T = .error "Stock price S0 must be positive"
    ∧ bs_call S0 (-1) r sigma T = .error "Strike price K must be positive"
    ∧ bs_call S0 K r (-1/10) T = .error "Volatility sigma must be non-negative"
    ∧ bs_call S0 K r sigma 0 = .error "Time to maturity T must be positive"
    ∧ (["Strike price K must be positive",
        "Number of paths must be positive",
        "Risk-free rate r must be non-negative",
        "Initial stock price S0 must be positive",
        "Volatility sigma must be non-negative",
        "Time to maturity T must be positive",
        "Number of steps must be positive"] : List String).Pairwise (· ≠ ·) := by
  refine ⟨?_, ?_, ?_, ?_, ?_, ?_, ?_, ?_, ?_, ?_, ?_, by decide⟩
  · unfold monte_carlo_price
    rw [if_pos (by norm_num : (-1:ℝ) ≤ 0)]
  · unfold monte_carlo_price
    rw [if_neg (not_le.mpr hK), if_pos (le_refl (0:ℤ))]
  · unfold monte_carlo_price
    rw [if_neg (not_le.mpr hK), if_neg (not_le.mpr hn),
      if_pos (by norm_num : (-1/100 : ℝ) < 0)]
  · exact monte_carlo_price_propagate _ K call n_paths r W _ hK hn hr
      (fun Y => by unfold simulate_path; rw [if_pos (le_refl (0:ℝ))])
  · exact monte_carlo_price_propagate _ K call n_paths r W _ hK hn hr
      (fun Y => by
        unfold simulate_path
        rw [if_neg (not_le.mpr hS0), if_pos (by norm_num : (-1/10 : ℝ) < 0)])
  · exact monte_carlo_price_propagate _ K call n_paths r W _ hK hn hr
      (fun Y => by
        unfold simulate_path
        rw [if_neg (not_le.mpr hS0), if_neg (not_lt.mpr hsig),
          if_pos (le_refl (0:ℝ))])
  · exact monte_carlo_price_propagate _ K call n_paths r W _ hK hn hr
      (fun Y => by
        unfold simulate_path
        rw [if_neg (not_le.mpr hS0), if_neg (not_lt.mpr hsig),
          if_neg (not_le.mpr hT), if_pos (le_refl (0:ℤ))])
  · unfold bs_call
    rw [if_pos (le_refl (0:ℝ))]
  · unfold bs_call
    rw [if_neg (not_le.mpr hS0), if_pos (by norm_num : (-1:ℝ) ≤ 0)]
  · unfold bs_call
    rw [if_neg (not_le.mpr hS0), if_neg (not_le.mpr hK),
      if_pos (by norm_num : (-1/10 : ℝ) < 0)]
  · unfold bs_call
    rw [if_neg (not_le.mpr hS0), if_neg (not_le.mpr hK),
      if_neg (not_lt.mpr hsig), if_pos (le_refl (0:ℝ))]

/-- Witness for the amended C6 at the spec test baseline S0 = 100,
sigma = 0.2, T = 1, steps = 252, K = 100, n_paths = 1000, r = 0.05. -/
theorem validation_messages_distinct_witness :
    monte_carlo_price ⟨0, 2/10, 1, 252⟩ 100 true 1000 (5/100) Wc
      = .error "Initial stock price S0 must be positive" :=
  (validation_messages_distinct 100 (2/10) 1 252 100 (5/100) true 1000 Wc
    (by norm_num) (by norm_num) (by norm_num) (by norm_num) (by norm_num)
    (by norm_num) (by norm_num)).2.2.2.1

end MCPricer
